import Mathlib

/-!
Verification of the snapshot lifecycle and replication engine of the
`baeckup` repository (btrfs backend). The Python functions of
`src/app/backup.py` (duplicated in `src/app/solution/btrfs.py`) are
embedded as executable Lean definitions:

* `incSyncWalk` / `incSyncToT` embed `Btrfs.__inc_sync_to_t` together with
  the `Btrfs.__full_sync_to_t` fallback, producing a transfer plan instead
  of running `btrfs send | btrfs receive`.  The recursive re-invocation of
  the Python code is modelled with explicit fuel, and the `s_snaps[0]`
  access of `__full_sync_to_t` on an empty list is modelled as an
  `indexError` outcome.
* `execPlan` models the effect of executing a plan on the target
  directory (`btrfs receive` adds the transferred snapshot).
* `delOldTSnaps` embeds `Btrfs.__del_old_t_snaps`: a best-effort deletion
  loop over the target names absent from the source, parametrised by an
  oracle giving each `btrfs subvolume delete` call's exit status.
* `snapEligible` / `calcEligibleSnaps` embed `Btrfs.__calc_eligible_snaps`
  (Python `timedelta.days` is floor division by 86400, `timedelta.seconds`
  the non-negative remainder).
* `sortAsc` / `pySliceFrom` / `rmExcessSnaps` embed
  `Btrfs.__rm_excess_snaps`: ascending sort and Python slice `[keep:]`;
  each loop iteration builds the delete path from
  `self.source_snapshot_path`, an attribute no class ever assigns (only
  `source_btrfs_snapshot_path` exists), so a non-empty slice raises
  `AttributeError` on the first iteration and only an empty slice
  returns normally.
* `runPhases` / `mainRun` embed `run.py:main` together with
  `app/function.py:lock/unlock`: the lock file is created before any
  mutating phase, a fatal `sys.exit(1)` inside a phase leaves `main`
  without reaching `fn.unlock()`, and a successful run removes the file.
-/

/-- One step of a sync plan: a full `btrfs send` of a snapshot, or an
incremental `btrfs send -p base snapshot`. -/
inductive SyncStep where
  | full : String → SyncStep
  | incr : String → String → SyncStep
deriving DecidableEq

/-- The snapshot a step transfers (the argument of `btrfs receive`). -/
def SyncStep.snap : SyncStep → String
  | SyncStep.full s => s
  | SyncStep.incr _ s => s

/-- Whether a step is a full transfer. -/
def SyncStep.isFullSend : SyncStep → Bool
  | SyncStep.full _ => true
  | SyncStep.incr _ _ => false

/-- The for-loop of `Btrfs.__inc_sync_to_t`: walk the source names in
order, tracking `latest_common_snap` (initially `""`), emitting an
incremental step for each source name absent from the target whenever a
common snapshot has already been seen.  Returns the emitted plan and the
final value of `latest_common_snap`. -/
def incSyncWalk (tSnaps : List String) : List String → String → List SyncStep × String
  | [], latest => ([], latest)
  | s :: rest, latest =>
    if s ∈ tSnaps then
      incSyncWalk tSnaps rest s
    else if latest ≠ "" then
      let r := incSyncWalk tSnaps rest latest
      (SyncStep.incr latest s :: r.1, r.2)
    else
      incSyncWalk tSnaps rest latest

/-- Outcome of `Btrfs.__inc_sync_to_t`: a produced plan, the `IndexError`
raised by `__full_sync_to_t` on an empty source list, or exhaustion of the
recursion fuel (the Python code recurses with unchanged arguments). -/
inductive SyncResult where
  | ok : List SyncStep → SyncResult
  | indexError : SyncResult
  | outOfFuel : SyncResult
deriving DecidableEq

/-- Embedding of `Btrfs.__inc_sync_to_t`.  Runs the walk; if no common
snapshot was found it performs `__full_sync_to_t` (sending `s_snaps[0]`,
an `IndexError` when the source list is empty) and then re-invokes itself
on the unchanged argument lists, consuming one unit of fuel. -/
def incSyncToT : Nat → List String → List String → SyncResult
  | 0, _, _ => SyncResult.outOfFuel
  | fuel + 1, sSnaps, tSnaps =>
    let r := incSyncWalk tSnaps sSnaps ""
    if r.2 = "" then
      match sSnaps with
      | [] => SyncResult.indexError
      | s0 :: _ =>
        match incSyncToT fuel sSnaps tSnaps with
        | SyncResult.ok rest => SyncResult.ok (r.1 ++ SyncStep.full s0 :: rest)
        | e => e
    else
      SyncResult.ok r.1

/-- Effect of executing a plan on the target directory: each executed step
makes the transferred snapshot present on the target. -/
def execPlan (target : List String) : List SyncStep → List String
  | [] => target
  | step :: rest => execPlan (target ++ [SyncStep.snap step]) rest

/-- The target snapshots `Btrfs.__del_old_t_snaps` attempts to delete:
those absent from the source list. -/
def delOldCandidates (sSnaps tSnaps : List String) : List String :=
  tSnaps.filter (fun t => decide (t ∉ sSnaps))

/-- Embedding of `Btrfs.__del_old_t_snaps`: for each target name absent
from the source, run `btrfs subvolume delete`; a non-zero exit status
(`ok name = false`) is logged and the loop continues.  Returns the list of
attempted deletions and the list of logged failures, in loop order. -/
def delOldTSnaps (ok : String → Bool) (sSnaps : List String) : List String → List String × List String
  | [] => ([], [])
  | t :: rest =>
    let r := delOldTSnaps ok sSnaps rest
    if t ∈ sSnaps then r
    else (t :: r.1, if ok t then r.2 else t :: r.2)

/-- Outcome of `Btrfs.__rm_excess_snaps`: a normal return carrying the
attempted deletions and logged failures, or the uncaught `AttributeError`
raised while building a delete path. -/
inductive RmExcessOutcome where
  | done : List String → List String → RmExcessOutcome
  | attributeError : RmExcessOutcome
deriving DecidableEq

/-- A retention policy `(minDays, maxDays, minSeconds, maxSeconds,
keepCount)`, the five integers of one `retention_policies` list. -/
structure RetentionPolicy where
  minDays : Int
  maxDays : Int
  minSeconds : Int
  maxSeconds : Int
  keepCount : Int
deriving DecidableEq

/-- Python `timedelta.days` of a difference of `diff` seconds: floor
division by 86400 (negative differences round toward minus infinity). -/
def tdDays (diff : Int) : Int := Int.fdiv diff 86400

/-- Python `timedelta.seconds` of a difference of `diff` seconds: the
remainder after removing whole days, always in `[0, 86399]`. -/
def tdSeconds (diff : Int) : Int := Int.fmod diff 86400

/-- A snapshot as seen by `Btrfs.__calc_eligible_snaps`: its directory
name together with the creation time parsed from the name's
`YYYY_MM_DD_HH_MM` prefix, in seconds. -/
structure Snapshot where
  name : String
  time : Int
deriving DecidableEq

/-- The eligibility test of `Btrfs.__calc_eligible_snaps`:
`(now - t).days` within `[minDays, maxDays]` and `(now - t).seconds`
within `[minSeconds, maxSeconds]`, all bounds inclusive. -/
def snapEligible (p : RetentionPolicy) (now snapTime : Int) : Bool :=
  decide (tdDays (now - snapTime) ≥ p.minDays) &&
  decide (tdDays (now - snapTime) ≤ p.maxDays) &&
  decide (tdSeconds (now - snapTime) ≥ p.minSeconds) &&
  decide (tdSeconds (now - snapTime) ≤ p.maxSeconds)

/-- Embedding of `Btrfs.__calc_eligible_snaps`: keep the names of the
snapshots whose age passes the two-part day/second test. -/
def calcEligibleSnaps (p : RetentionPolicy) (now : Int) (snaps : List Snapshot) : List String :=
  (snaps.filter (fun s => snapEligible p now s.time)).map Snapshot.name

/-- Modelled from the spec's alternative reading rejected in §9: a single
elapsed-duration window `[minDays*86400 + minSeconds, maxDays*86400 +
maxSeconds]`, used only to show the source's two-part test differs. -/
def singleWindowEligible (p : RetentionPolicy) (now snapTime : Int) : Bool :=
  decide (p.minDays * 86400 + p.minSeconds ≤ now - snapTime) &&
  decide (now - snapTime ≤ p.maxDays * 86400 + p.maxSeconds)

/-- Lexicographic strict comparison on code-point sequences, the order
Python's `list.sort()` uses on `str` values. -/
def strLtAux : List Char → List Char → Bool
  | [], [] => false
  | [], _ :: _ => true
  | _ :: _, [] => false
  | a :: as, b :: bs =>
    if a.toNat < b.toNat then true
    else if b.toNat < a.toNat then false
    else strLtAux as bs

/-- Lexicographic `≤` on strings (code-point order). -/
def strLe (a b : String) : Bool := !(strLtAux b.data a.data)

/-- Insertion step of the ascending sort performed by
`eligible_snaps.sort()`. -/
def insertAsc (x : String) : List String → List String
  | [] => [x]
  | y :: ys => if strLe x y then x :: y :: ys else y :: insertAsc x ys

/-- Ascending sort of snapshot names, embedding `eligible_snaps.sort()`. -/
def sortAsc : List String → List String
  | [] => []
  | x :: xs => insertAsc x (sortAsc xs)

/-- Python slice `l[k:]` for an arbitrary integer `k`. -/
def pySliceFrom (k : Int) (l : List String) : List String :=
  if 0 ≤ k then l.drop k.toNat
  else l.drop (l.length - (-k).toNat)

/-- Embedding of `Btrfs.__rm_excess_snaps`: sort the eligible snapshots
ascending and iterate over `eligible_snaps[policy_lst[4]:]`.  Every loop
iteration first evaluates `f"{self.source_snapshot_path}/{snap}"`, and
`source_snapshot_path` is never assigned by `Backup` or `Btrfs` (only
`source_btrfs_snapshot_path` is), so the first iteration of a non-empty
slice raises `AttributeError` before any `subprocess.run`: nothing is
ever deleted, and only an empty slice returns normally. -/
def rmExcessSnaps (keepCount : Int) (eligible : List String) : RmExcessOutcome :=
  if pySliceFrom keepCount (sortAsc eligible) = [] then RmExcessOutcome.done [] []
  else RmExcessOutcome.attributeError

/-- One mutating phase requested by a flag of `run.py:main`, with whether
it aborts the process via `sys.exit(1)`. -/
structure Phase where
  name : String
  fatal : Bool
deriving DecidableEq

/-- The flag-guarded phase sequence of `run.py:main`: phases run in order;
a fatal phase calls `sys.exit(1)`, skipping the rest.  Returns the
executed phases and whether the run aborted. -/
def runPhases : List Phase → List String × Bool
  | [] => ([], false)
  | ph :: rest =>
    if ph.fatal then ([ph.name], true)
    else
      let r := runPhases rest
      (ph.name :: r.1, r.2)

/-- Observable outcome of one invocation of `run.py:main`. -/
structure RunOutcome where
  exitSuccess : Bool
  lockFileAtExit : Bool
  phasesExecuted : List String
deriving DecidableEq

/-- Embedding of `run.py:main` with `app/function.py:lock/unlock`.  If the
lock file already exists, `fn.lock()` hits `OSError` and exits before any
phase (the other invocation's lock file remains).  Otherwise the lock file
is created, the requested phases run in order, and `fn.unlock()` removes
the file only when no phase aborted: a `sys.exit(1)` inside a phase
propagates out of `main` without reaching `fn.unlock()`. -/
def mainRun (lockedAtStart : Bool) (phases : List Phase) : RunOutcome :=
  if lockedAtStart then
    { exitSuccess := false, lockFileAtExit := true, phasesExecuted := [] }
  else
    let r := runPhases phases
    if r.2 then
      { exitSuccess := false, lockFileAtExit := true, phasesExecuted := r.1 }
    else
      { exitSuccess := true, lockFileAtExit := false, phasesExecuted := r.1 }

/-- The pruning step of `Btrfs.sync_to_target`: after executing the plan,
delete from the target directory every name that was in the pre-sync
target listing but not in the source listing. -/
def pruneTarget (sSnaps tSnaps dir : List String) : List String :=
  dir.filter (fun x => decide (¬(x ∈ tSnaps ∧ x ∉ sSnaps)))

/-- One reconciler pass of `Btrfs.sync_to_target`: plan and execute the
incremental sync, then prune obsolete target snapshots.  `none` when the
sync step fails to produce a plan (crash or non-termination). -/
def syncPass (fuel : Nat) (s t : List String) : Option (List SyncStep × List String) :=
  match incSyncToT fuel s t with
  | SyncResult.ok plan => some (plan, pruneTarget s t (execPlan t plan))
  | _ => none

/-! ## Lemmas about the sync walk -/

theorem incSyncWalk_nil (t : List String) (latest : String) :
    incSyncWalk t [] latest = ([], latest) := rfl

theorem incSyncWalk_cons_mem {t : List String} {a : String} (h : a ∈ t)
    (s : List String) (latest : String) :
    incSyncWalk t (a :: s) latest = incSyncWalk t s a := by
  simp [incSyncWalk, h]

theorem incSyncWalk_cons_not_mem_ne {t : List String} {a latest : String}
    (h : a ∉ t) (h2 : latest ≠ "") (s : List String) :
    incSyncWalk t (a :: s) latest =
      (SyncStep.incr latest a :: (incSyncWalk t s latest).1, (incSyncWalk t s latest).2) := by
  simp [incSyncWalk, h, h2]

theorem incSyncWalk_cons_not_mem_nil {t : List String} {a : String}
    (h : a ∉ t) (s : List String) :
    incSyncWalk t (a :: s) "" = incSyncWalk t s "" := by
  simp [incSyncWalk, h]

theorem incSyncWalk_append (t : List String) (l1 l2 : List String) (latest : String) :
    incSyncWalk t (l1 ++ l2) latest =
      ((incSyncWalk t l1 latest).1 ++ (incSyncWalk t l2 (incSyncWalk t l1 latest).2).1,
       (incSyncWalk t l2 (incSyncWalk t l1 latest).2).2) := by
  induction l1 generalizing latest with
  | nil => simp [incSyncWalk]
  | cons a l1 ih =>
    by_cases ha : a ∈ t
    · simp [List.cons_append, incSyncWalk_cons_mem ha, ih]
    · by_cases hl : latest = ""
      · subst hl
        simp [List.cons_append, incSyncWalk_cons_not_mem_nil ha, ih]
      · simp [List.cons_append, incSyncWalk_cons_not_mem_ne ha hl, ih]

theorem incSyncWalk_latest_ne {t : List String} (hnt : "" ∉ t) :
    ∀ (s : List String) (latest : String), latest ≠ "" → (incSyncWalk t s latest).2 ≠ "" := by
  intro s
  induction s with
  | nil => intro latest h; simpa [incSyncWalk] using h
  | cons a rest ih =>
    intro latest h
    by_cases ha : a ∈ t
    · have hane : a ≠ "" := fun he => hnt (he ▸ ha)
      rw [incSyncWalk_cons_mem ha]
      exact ih a hane
    · rw [incSyncWalk_cons_not_mem_ne ha h]
      exact ih latest h

theorem incSyncWalk_no_full {t : List String} :
    ∀ (s : List String) (latest : String) (step : SyncStep),
      step ∈ (incSyncWalk t s latest).1 → step.isFullSend = false := by
  intro s
  induction s with
  | nil => intro latest step h; simp [incSyncWalk] at h
  | cons a rest ih =>
    intro latest step h
    by_cases ha : a ∈ t
    · rw [incSyncWalk_cons_mem ha] at h
      exact ih a step h
    · by_cases hl : latest = ""
      · subst hl
        rw [incSyncWalk_cons_not_mem_nil ha] at h
        exact ih "" step h
      · rw [incSyncWalk_cons_not_mem_ne ha hl] at h
        rcases List.mem_cons.1 h with h1 | h1
        · subst h1; rfl
        · exact ih latest step h1

theorem incSyncWalk_snap_not_mem {t : List String} :
    ∀ (s : List String) (latest : String) (step : SyncStep),
      step ∈ (incSyncWalk t s latest).1 → SyncStep.snap step ∉ t := by
  intro s
  induction s with
  | nil => intro latest step h; simp [incSyncWalk] at h
  | cons a rest ih =>
    intro latest step h
    by_cases ha : a ∈ t
    · rw [incSyncWalk_cons_mem ha] at h
      exact ih a step h
    · by_cases hl : latest = ""
      · subst hl
        rw [incSyncWalk_cons_not_mem_nil ha] at h
        exact ih "" step h
      · rw [incSyncWalk_cons_not_mem_ne ha hl] at h
        rcases List.mem_cons.1 h with h1 | h1
        · subst h1; exact ha
        · exact ih latest step h1

theorem incSyncWalk_incr_base {t : List String} :
    ∀ (s : List String) (latest : String), latest = "" ∨ latest ∈ t →
      ∀ (b y : String), SyncStep.incr b y ∈ (incSyncWalk t s latest).1 → b ∈ t ∧ y ∉ t := by
  intro s
  induction s with
  | nil => intro latest _ b y h; simp [incSyncWalk] at h
  | cons a rest ih =>
    intro latest hlat b y h
    by_cases ha : a ∈ t
    · rw [incSyncWalk_cons_mem ha] at h
      exact ih a (Or.inr ha) b y h
    · by_cases hl : latest = ""
      · subst hl
        rw [incSyncWalk_cons_not_mem_nil ha] at h
        exact ih "" (Or.inl rfl) b y h
      · rw [incSyncWalk_cons_not_mem_ne ha hl] at h
        rcases List.mem_cons.1 h with h1 | h1
        · rcases hlat with h2 | h2
          · exact absurd h2 hl
          · cases h1
            exact ⟨h2, ha⟩
        · exact ih latest hlat b y h1

theorem incSyncWalk_covers {t : List String} (hnt : "" ∉ t) :
    ∀ (s : List String) (latest : String), latest ≠ "" →
      ∀ y ∈ s, y ∈ t ∨ y ∈ (incSyncWalk t s latest).1.map SyncStep.snap := by
  intro s
  induction s with
  | nil => intro latest _ y hy; simp at hy
  | cons a rest ih =>
    intro latest hlat y hy
    by_cases ha : a ∈ t
    · have hane : a ≠ "" := fun he => hnt (he ▸ ha)
      rw [incSyncWalk_cons_mem ha]
      rcases List.mem_cons.1 hy with h1 | h1
      · exact Or.inl (h1 ▸ ha)
      · exact ih a hane y h1
    · rw [incSyncWalk_cons_not_mem_ne ha hlat]
      rcases List.mem_cons.1 hy with h1 | h1
      · subst h1
        exact Or.inr (by simp [SyncStep.snap])
      · rcases ih latest hlat y h1 with h2 | h2
        · exact Or.inl h2
        · exact Or.inr (by simp [h2])

theorem incSyncWalk_disjoint {t : List String} :
    ∀ (s : List String), (∀ x ∈ s, x ∉ t) → incSyncWalk t s "" = ([], "") := by
  intro s
  induction s with
  | nil => intro _; rfl
  | cons a rest ih =>
    intro h
    rw [incSyncWalk_cons_not_mem_nil (h a (List.mem_cons_self a rest))]
    exact ih (fun x hx => h x (List.mem_cons_of_mem a hx))

theorem incSyncWalk_all_common {t : List String} :
    ∀ (s : List String) (latest : String), (∀ x ∈ s, x ∈ t) → s ≠ [] →
      (incSyncWalk t s latest).1 = [] ∧ (incSyncWalk t s latest).2 ∈ s := by
  intro s
  induction s with
  | nil => intro latest _ h; exact absurd rfl h
  | cons a rest ih =>
    intro latest h _
    rw [incSyncWalk_cons_mem (h a (List.mem_cons_self a rest))]
    rcases eq_or_ne rest [] with hr | hr
    · subst hr
      simp [incSyncWalk]
    · rcases ih a (fun x hx => h x (List.mem_cons_of_mem a hx)) hr with ⟨h1, h2⟩
      exact ⟨h1, List.mem_cons_of_mem a h2⟩

/-! ## Lemmas about the recursive sync procedure -/

theorem incSyncToT_not_ok_of_noCommon {s t : List String}
    (h : (incSyncWalk t s "").2 = "") :
    ∀ (fuel : Nat) (plan : List SyncStep), incSyncToT fuel s t ≠ SyncResult.ok plan := by
  intro fuel
  induction fuel with
  | zero => intro plan; simp [incSyncToT]
  | succ n ih =>
    intro plan
    cases s with
    | nil => simp [incSyncToT, h]
    | cons s0 rest =>
      simp only [incSyncToT, h, if_pos]
      cases hrec : incSyncToT n (s0 :: rest) t with
      | ok plan2 => exact absurd hrec (ih plan2)
      | indexError => simp
      | outOfFuel => simp

theorem incSyncToT_ok_inversion {s t : List String} {fuel : Nat} {plan : List SyncStep}
    (h : incSyncToT fuel s t = SyncResult.ok plan) :
    (incSyncWalk t s "").2 ≠ "" ∧ plan = (incSyncWalk t s "").1 := by
  cases fuel with
  | zero => simp [incSyncToT] at h
  | succ n =>
    by_cases hw : (incSyncWalk t s "").2 = ""
    · exact absurd h (incSyncToT_not_ok_of_noCommon hw (n + 1) plan)
    · refine ⟨hw, ?_⟩
      simp only [incSyncToT, hw, if_neg, if_false] at h
      exact (SyncResult.ok.injEq _ _ ▸ h).symm

theorem incSyncToT_of_common {s t : List String} {fuel : Nat}
    (h : (incSyncWalk t s "").2 ≠ "") :
    incSyncToT (fuel + 1) s t = SyncResult.ok (incSyncWalk t s "").1 := by
  simp only [incSyncToT, h, if_neg, if_false]

/-! ## Lemmas about plan execution and deletion loops -/

theorem mem_execPlan (y : String) :
    ∀ (plan : List SyncStep) (tgt : List String),
      y ∈ execPlan tgt plan ↔ y ∈ tgt ∨ y ∈ plan.map SyncStep.snap := by
  intro plan
  induction plan with
  | nil => intro tgt; simp [execPlan]
  | cons step rest ih =>
    intro tgt
    simp only [execPlan, ih, List.mem_append, List.mem_singleton, List.map_cons,
      List.mem_cons]
    tauto

theorem delOldTSnaps_fst (ok : String → Bool) (s : List String) :
    ∀ t : List String, (delOldTSnaps ok s t).1 = delOldCandidates s t := by
  intro t
  induction t with
  | nil => rfl
  | cons a rest ih =>
    by_cases h : a ∈ s
    · simp [delOldTSnaps, delOldCandidates, List.filter_cons, h, ih]
    · simp [delOldTSnaps, h, ih, delOldCandidates, List.filter_cons]

theorem delOldTSnaps_snd (ok : String → Bool) (s : List String) :
    ∀ t : List String,
      (delOldTSnaps ok s t).2 = (delOldCandidates s t).filter (fun x => !(ok x)) := by
  intro t
  induction t with
  | nil => rfl
  | cons a rest ih =>
    by_cases h : a ∈ s
    · simp [delOldTSnaps, h, ih, delOldCandidates, List.filter_cons]
    · by_cases hok : ok a
      · simp [delOldTSnaps, h, ih, delOldCandidates, List.filter_cons, hok]
      · simp only [Bool.not_eq_true] at hok
        simp [delOldTSnaps, h, ih, delOldCandidates, List.filter_cons, hok]

/-! ## Lemmas about sorting and slicing -/

theorem insertAsc_length (x : String) :
    ∀ l : List String, (insertAsc x l).length = l.length + 1 := by
  intro l
  induction l with
  | nil => rfl
  | cons y ys ih =>
    by_cases h : strLe x y = true
    · simp [insertAsc, h]
    · simp only [Bool.not_eq_true] at h
      simp [insertAsc, h, ih]

theorem sortAsc_length : ∀ l : List String, (sortAsc l).length = l.length := by
  intro l
  induction l with
  | nil => rfl
  | cons x xs ih => simp [sortAsc, insertAsc_length, ih]

theorem pySliceFrom_ofNat (k : Nat) (l : List String) :
    pySliceFrom (Int.ofNat k) l = l.drop k := by
  simp [pySliceFrom, Int.ofNat_nonneg]

/-! ## Claim C1 — the retention evaluator never deletes anything -/

/-- C1 counterexample: under keepCount = 2 with five eligible snapshots
named in ascending creation order (n1 oldest … n5 newest), the claim
predicts deletion of exactly the three oldest (`["n1", "n2", "n3"]`); the
code instead raises `AttributeError` on the never-assigned
`self.source_snapshot_path` in the first iteration of its deletion loop,
deleting no snapshot at all. -/
theorem c1_counterexample :
    rmExcessSnaps 2 ["n1", "n2", "n3", "n4", "n5"] = RmExcessOutcome.attributeError
    ∧ RmExcessOutcome.attributeError ≠ RmExcessOutcome.done ["n1", "n2", "n3"] [] := by
  decide

/-- C1 (amended): for every keep count and every list of eligible
snapshots, the retention evaluator deletes nothing: if keepCount ≥
len(eligible) the slice `eligible_snaps[keepCount:]` is empty, the loop
body never runs and the evaluator returns normally with no deletion
attempted; otherwise the first loop iteration raises `AttributeError` on
the never-assigned `self.source_snapshot_path`, aborting the invocation
with no snapshot deleted. -/
theorem c1_retention_never_deletes (k : Nat) (eligible : List String) :
    (eligible.length ≤ k →
      rmExcessSnaps (Int.ofNat k) eligible = RmExcessOutcome.done [] [])
    ∧ (k < eligible.length →
      rmExcessSnaps (Int.ofNat k) eligible = RmExcessOutcome.attributeError) := by
  have hlen : (sortAsc eligible).length = eligible.length := sortAsc_length eligible
  constructor
  · intro hk
    have hnil : (sortAsc eligible).drop k = [] :=
      List.drop_eq_nil_of_le (by rw [hlen]; exact hk)
    unfold rmExcessSnaps
    rw [pySliceFrom_ofNat, hnil]
    simp
  · intro hk
    have hne : (sortAsc eligible).drop k ≠ [] := by
      intro hnil
      have h2 := congrArg List.length hnil
      rw [List.length_drop, hlen] at h2
      simp only [List.length_nil] at h2
      omega
    unfold rmExcessSnaps
    rw [pySliceFrom_ofNat]
    simp [hne]

/-- C1 witness: the amended theorem evaluated at keepCount = 5 on the
five-snapshot example: the loop is empty and nothing is deleted. -/
theorem c1_retention_never_deletes_witness :
    rmExcessSnaps (Int.ofNat 5) ["n1", "n2", "n3", "n4", "n5"]
      = RmExcessOutcome.done [] [] :=
  (c1_retention_never_deletes 5 ["n1", "n2", "n3", "n4", "n5"]).1 (by decide)

/-! ## Claim C2 — convergence only from the first common snapshot on -/

/-- C2 counterexample: source `["a", "b"]` and target `["b"]` intersect in
`"b"`, yet the sync pass produces the empty plan (the missing snapshot
`"a"` precedes the first common snapshot and is skipped), so after
execution the target still lacks `"a"`: the target does not become a
superset of the source. -/
theorem c2_counterexample :
    incSyncToT 1 ["a", "b"] ["b"] = SyncResult.ok []
    ∧ ("a" : String) ∈ (["a", "b"] : List String)
    ∧ execPlan ["b"] [] = ["b"]
    ∧ ("a" : String) ∉ (["b"] : List String) := by decide

/-- C2 (amended): for source and target lists with a common snapshot (and
no empty name on the target), the sync pass terminates without any full
transfer, and executing its plan makes every source snapshot from the
first common snapshot onward present on the target; source snapshots
preceding the first common one may remain absent. -/
theorem c2_superset_from_first_common (t pre suf : List String) (x : String)
    (hx : x ∈ t) (hnt : "" ∉ t) :
    ∃ plan, incSyncToT 1 (pre ++ x :: suf) t = SyncResult.ok plan
      ∧ (∀ step ∈ plan, SyncStep.isFullSend step = false)
      ∧ ∀ y ∈ x :: suf, y ∈ execPlan t plan := by
  have hxne : x ≠ "" := fun he => hnt (he ▸ hx)
  have happ := incSyncWalk_append t pre (x :: suf) ""
  rw [incSyncWalk_cons_mem hx suf ((incSyncWalk t pre "").2)] at happ
  have hfin : (incSyncWalk t (pre ++ x :: suf) "").2 ≠ "" := by
    rw [happ]
    exact incSyncWalk_latest_ne hnt suf x hxne
  refine ⟨(incSyncWalk t pre "").1 ++ (incSyncWalk t suf x).1, ?_, ?_, ?_⟩
  · rw [incSyncToT_of_common hfin, happ]
  · intro step hstep
    rcases List.mem_append.1 hstep with h1 | h1
    · exact incSyncWalk_no_full pre "" step h1
    · exact incSyncWalk_no_full suf x step h1
  · intro y hy
    rcases List.mem_cons.1 hy with h1 | h1
    · subst h1
      exact (mem_execPlan y _ t).2 (Or.inl hx)
    · rcases incSyncWalk_covers hnt suf x hxne y h1 with h2 | h2
      · exact (mem_execPlan y _ t).2 (Or.inl h2)
      · refine (mem_execPlan y _ t).2 (Or.inr ?_)
        rw [List.map_append]
        exact List.mem_append_right _ h2
  
/-- C2 witness: the amended theorem on source `["p", "b", "c"]`, target
`["b"]`: snapshots `"b"` and `"c"` are present after execution. -/
theorem c2_superset_from_first_common_witness :
    ∃ plan, incSyncToT 1 (["p"] ++ "b" :: ["c"]) ["b"] = SyncResult.ok plan
      ∧ (∀ step ∈ plan, SyncStep.isFullSend step = false)
      ∧ ∀ y ∈ "b" :: ["c"], y ∈ execPlan ["b"] plan :=
  c2_superset_from_first_common ["b"] ["p"] ["c"] "b" (by decide) (by decide)

/-! ## Claim C3 — a disjoint sync pass never terminates -/

/-- C3: with a non-empty source disjoint from the target,
`__inc_sync_to_t` re-invokes itself with unchanged argument lists after
the full send, so for every recursion budget the procedure exhausts it:
the pass never terminates and never yields the claimed one-full-plus-
incrementals plan. -/
theorem c3_no_common_never_terminates (s t : List String) (hne : s ≠ [])
    (hdisj : ∀ x ∈ s, x ∉ t) :
    ∀ fuel : Nat, incSyncToT fuel s t = SyncResult.outOfFuel := by
  obtain ⟨s0, rest, rfl⟩ : ∃ s0 rest, s = s0 :: rest := by
    cases s with
    | nil => exact absurd rfl hne
    | cons a r => exact ⟨a, r, rfl⟩
  have hw : incSyncWalk t (s0 :: rest) "" = ([], "") :=
    incSyncWalk_disjoint (s0 :: rest) hdisj
  intro fuel
  induction fuel with
  | zero => rfl
  | succ n ih => simp only [incSyncToT, hw, if_pos, ih]

/-- C3 witness: the non-termination theorem evaluated on source `["a"]`
and empty target with fuel 2. -/
theorem c3_no_common_never_terminates_witness :
    incSyncToT 2 ["a"] [] = SyncResult.outOfFuel :=
  c3_no_common_never_terminates ["a"] [] (by decide) (by decide) 2

/-! ## Claim C4 — incremental bases never advance past the common point -/

/-- C4 counterexample: source `["a", "b", "c"]`, target `["a"]`.  The
claim predicts plan `[incr a b, incr b c]` (each base the previously
transferred snapshot); the code emits `[incr a b, incr a c]` because
`latest_common_snap` is never updated after a transfer. -/
theorem c4_counterexample :
    incSyncToT 1 ["a", "b", "c"] ["a"]
      = SyncResult.ok [SyncStep.incr "a" "b", SyncStep.incr "a" "c"]
    ∧ SyncStep.incr "a" "c" ≠ SyncStep.incr "b" "c" := by decide

/-- C4 (amended): in every produced plan, each incremental step's base is
a snapshot originally present on the target (the latest common snapshot
seen during the walk) and the transferred snapshot is not; a transferred
snapshot is never used as the base of a later step. -/
theorem c4_bases_stay_common (fuel : Nat) (s t : List String) (plan : List SyncStep)
    (h : incSyncToT fuel s t = SyncResult.ok plan) (b y : String)
    (hb : SyncStep.incr b y ∈ plan) : b ∈ t ∧ y ∉ t := by
  rcases incSyncToT_ok_inversion h with ⟨_, hplan⟩
  subst hplan
  exact incSyncWalk_incr_base s "" (Or.inl rfl) b y hb

/-- C4 witness: the amended theorem evaluated on source `["a", "b"]`,
target `["a"]`, whose plan is `[incr a b]`. -/
theorem c4_bases_stay_common_witness :
    ("a" : String) ∈ (["a"] : List String) ∧ ("b" : String) ∉ (["a"] : List String) :=
  c4_bases_stay_common 1 ["a", "b"] ["a"] [SyncStep.incr "a" "b"] (by decide) "a" "b"
    (by decide)

/-! ## Claim C5 — empty source crashes instead of doing nothing -/

/-- C5: with an empty source list the walk finds no common snapshot, so
`__inc_sync_to_t` calls `__full_sync_to_t([])`, which evaluates
`s_snaps[0]` and raises `IndexError` — contradicting the claim (and the
function's own docstring) that an empty source yields an empty plan and
no failure. -/
theorem c5_empty_source_index_error (t : List String) (fuel : Nat) :
    incSyncToT (fuel + 1) [] t = SyncResult.indexError := by
  simp [incSyncToT, incSyncWalk]

/-! ## Claim C6 — the two-part day/second eligibility window -/

/-- C6: a snapshot name is kept by `__calc_eligible_snaps` iff its parsed
creation time puts `(now - t).days` inside `[minDays, maxDays]` and the
sub-day remainder `(now - t).seconds` inside `[minSeconds, maxSeconds]`,
all bounds inclusive; and this two-part test is not the single
elapsed-duration comparison (they differ on a concrete input). -/
theorem c6_two_part_window :
    (∀ (p : RetentionPolicy) (now : Int) (snaps : List Snapshot) (nm : String),
      nm ∈ calcEligibleSnaps p now snaps ↔
        ∃ sn : Snapshot, sn ∈ snaps ∧ sn.name = nm ∧
          p.minDays ≤ tdDays (now - sn.time) ∧ tdDays (now - sn.time) ≤ p.maxDays ∧
          p.minSeconds ≤ tdSeconds (now - sn.time) ∧ tdSeconds (now - sn.time) ≤ p.maxSeconds)
    ∧ ∃ (p : RetentionPolicy) (now tm : Int),
        snapEligible p now tm ≠ singleWindowEligible p now tm := by
  constructor
  · intro p now snaps nm
    simp only [calcEligibleSnaps, List.mem_map, List.mem_filter, snapEligible,
      Bool.and_eq_true, decide_eq_true_eq, ge_iff_le]
    constructor
    · rintro ⟨sn, ⟨hmem, ⟨⟨h1, h2⟩, h3⟩, h4⟩, hname⟩
      exact ⟨sn, hmem, hname, h1, h2, h3, h4⟩
    · rintro ⟨sn, hmem, hname, h1, h2, h3, h4⟩
      exact ⟨sn, ⟨hmem, ⟨⟨h1, h2⟩, h3⟩, h4⟩, hname⟩
  · exact ⟨⟨0, 7, 0, 0, 0⟩, 86430, 0, by decide⟩

/-! ## Claim C7 — identical snapshot sets and idempotence -/

/-- C7 counterexample: the empty source and empty target have identical
snapshot name sets, yet the sync pass does not produce the empty plan —
it raises `IndexError` in `__full_sync_to_t` instead. -/
theorem c7_counterexample :
    incSyncToT 3 ([] : List String) [] = SyncResult.indexError
    ∧ SyncResult.indexError ≠ SyncResult.ok [] := by decide

/-- C7 (amended): for identical non-empty source and target snapshot name
sets (with no empty name), one reconciler pass produces the empty plan and
leaves the target unchanged, and running the pass again on the resulting
state again produces the empty plan: the reconciler is idempotent on
converged non-empty state. -/
theorem c7_identical_nonempty_idempotent (s t : List String) (fuel : Nat)
    (hne : s ≠ []) (hnil : "" ∉ s) (hset : ∀ x : String, x ∈ s ↔ x ∈ t) :
    ∃ tgt, syncPass (fuel + 1) s t = some ([], tgt)
      ∧ syncPass (fuel + 1) s tgt = some ([], tgt) := by
  have hcom : ∀ x ∈ s, x ∈ t := fun x hx => (hset x).1 hx
  rcases incSyncWalk_all_common s "" hcom hne with ⟨h1, h2⟩
  have hm : (incSyncWalk t s "").2 ≠ "" := fun he => hnil (he ▸ h2)
  have hok : incSyncToT (fuel + 1) s t = SyncResult.ok [] := by
    rw [incSyncToT_of_common hm, h1]
  have hprune : pruneTarget s t (execPlan t []) = t := by
    simp only [execPlan, pruneTarget]
    refine List.filter_eq_self.2 (fun a ha => ?_)
    simp [(hset a).2 ha]
  refine ⟨t, ?_, ?_⟩ <;> simp [syncPass, hok, hprune]

/-- C7 witness: the idempotence theorem evaluated on source and target
both equal to `["a"]`. -/
theorem c7_identical_nonempty_idempotent_witness :
    ∃ tgt, syncPass 1 ["a"] ["a"] = some ([], tgt)
      ∧ syncPass 1 ["a"] tgt = some ([], tgt) :=
  c7_identical_nonempty_idempotent ["a"] ["a"] 0 (by decide) (by decide) (fun x => Iff.rfl)

/-! ## Claim C8 — pruning is best-effort, the retention loop crashes -/

/-- C8: the target-pruning loop is best-effort per item — every candidate
(each target name absent from the source) is attempted no matter which
individual `btrfs subvolume delete` calls fail, and a failed delete is
only recorded as a logged error — but the retention deletion loop,
contrary to the claim and to its own log-and-continue error handling,
raises `AttributeError` on its very first deletion attempt and thereby
aborts policy evaluation and the invocation, shown here at the failing
input keepCount = 0 with one eligible snapshot. -/
theorem c8_pruning_best_effort_retention_crash (ok : String → Bool) (s t : List String) :
    (delOldTSnaps ok s t).1 = delOldCandidates s t
    ∧ (delOldTSnaps ok s t).2 = (delOldCandidates s t).filter (fun x => !(ok x))
    ∧ rmExcessSnaps 0 ["x"] = RmExcessOutcome.attributeError :=
  ⟨delOldTSnaps_fst ok s t, delOldTSnaps_snd ok s t, by decide⟩

/-! ## Claim C9 — the lock is not released on fatal exit paths -/

/-- C9 counterexample: an invocation that acquires the lock and then
aborts fatally inside a phase (here `--snap` failing) exits with the lock
file still present: `fn.unlock()` is only reached on the successful path,
so the lock is not released on every exit path as claimed. -/
theorem c9_counterexample :
    (mainRun false [{ name := "snap", fatal := true }]).lockFileAtExit ≠ false := by
  decide

/-- C9 (amended): the lock file is created before any mutating phase and a
second invocation while it exists fails fast with no phase executed; the
lock is released only at the end of a fully successful run — an invocation
aborting with a fatal error after acquiring the lock exits with the lock
file still in place. -/
theorem c9_lock_lifecycle (phases : List Phase) :
    ((mainRun true phases).phasesExecuted = [] ∧ (mainRun true phases).exitSuccess = false
      ∧ (mainRun true phases).lockFileAtExit = true)
    ∧ ((runPhases phases).2 = false →
        (mainRun false phases).lockFileAtExit = false
          ∧ (mainRun false phases).exitSuccess = true)
    ∧ ((runPhases phases).2 = true →
        (mainRun false phases).lockFileAtExit = true
          ∧ (mainRun false phases).exitSuccess = false) := by
  refine ⟨⟨rfl, rfl, rfl⟩, fun h => ?_, fun h => ?_⟩ <;> simp [mainRun, h]

/-- C9 witness: the lifecycle theorem evaluated on a single successful
`--snap` phase: the run succeeds and the lock file is gone at exit. -/
theorem c9_lock_lifecycle_witness :
    (mainRun false [{ name := "snap", fatal := false }]).lockFileAtExit = false
    ∧ (mainRun false [{ name := "snap", fatal := false }]).exitSuccess = true :=
  (c9_lock_lifecycle [{ name := "snap", fatal := false }]).2.1 (by decide)

/-! ## Claim C10 — common snapshots are never transferred nor deleted -/

/-- C10: whenever a sync pass produces a plan, a snapshot name present in
both the source and target lists is never the transferred snapshot of any
plan step and is never a target-side deletion candidate: common snapshots
are left untouched on both sides. -/
theorem c10_common_untouched (fuel : Nat) (s t : List String) (plan : List SyncStep)
    (h : incSyncToT fuel s t = SyncResult.ok plan) (c : String) (hcs : c ∈ s)
    (hct : c ∈ t) :
    (∀ step ∈ plan, SyncStep.snap step ≠ c) ∧ c ∉ delOldCandidates s t := by
  rcases incSyncToT_ok_inversion h with ⟨_, hplan⟩
  subst hplan
  refine ⟨fun step hstep he => ?_, fun hmem => ?_⟩
  · exact incSyncWalk_snap_not_mem s "" step hstep (he ▸ hct)
  · rcases List.mem_filter.1 hmem with ⟨_, hdec⟩
    exact (of_decide_eq_true hdec) hcs

/-- C10 witness: the frame theorem evaluated on source `["a", "b"]` and
target `["a"]` with the common snapshot `"a"`. -/
theorem c10_common_untouched_witness :
    (∀ step ∈ [SyncStep.incr "a" "b"], SyncStep.snap step ≠ "a")
    ∧ ("a" : String) ∉ delOldCandidates ["a", "b"] ["a"] :=
  c10_common_untouched 1 ["a", "b"] ["a"] [SyncStep.incr "a" "b"] (by decide) "a"
    (by decide) (by decide)
